import Mathlib

/-!
Shallow embedding of the konypv media-pool scripts.

The filesystem is modelled as a pair of path lists (directories and plain
files); a path is a list of name components relative to an abstract root.
The lock manager (`sync_pools.py`, `_LockCtx` and `main`), the content
index and diff (`sdcard_to_lacie.py`, `wipe_sdcard.py`), the bin-name
allocator (`suggest_next_bin_name`, `next_today_bucket`), the itemized
rsync-output parser (`rsync_list_missing_from_src_mp4_only`) and the
orchestrator control flow (`sync_pair_forward_then_optional_back`) are
translated from the Python source.
-/

/-- A filesystem path: list of name components. -/
abbrev FPath := List String

/-- `make_lock(root)` from sync_pools.py: the sentinel lives at
`root/.sync.lock`. -/
def make_lock (root : FPath) : FPath := root ++ [".sync.lock"]

/-- Filesystem state: the set of directories and the set of plain files,
as lists of paths.  File contents are not modelled; only existence of
paths matters to the claims. -/
structure FS where
  dirs : List FPath
  files : List FPath
deriving DecidableEq, Repr

/-- All ancestor paths of `p`, `p` included (the chain `mkdir(parents=True)`
creates). -/
def pathParents (p : FPath) : List FPath :=
  (List.range (p.length + 1)).map (fun n => p.take n)

/-- Create a single directory if absent (`exist_ok=True` semantics). -/
def addDir (d : FPath) (fs : FS) : FS :=
  if d ∈ fs.dirs then fs else { fs with dirs := fs.dirs ++ [d] }

/-- `Path.mkdir(parents=True, exist_ok=True)`: create the directory and
any missing ancestors. -/
def mkdirParents (p : FPath) (fs : FS) : FS :=
  (pathParents p).foldl (fun acc d => addDir d acc) fs

/-- `Path.write_text`: afterwards the path exists as a plain file
(contents are not modelled, so rewriting an existing file leaves the
path set unchanged). -/
def writeFile (p : FPath) (fs : FS) : FS :=
  if p ∈ fs.files then fs else { fs with files := fs.files ++ [p] }

/-- `Path.unlink(missing_ok=True)`: remove the file if present. -/
def removeFile (p : FPath) (fs : FS) : FS :=
  { fs with files := fs.files.filter (fun q => q ≠ p) }

/-- `Path.exists()` over the modelled state. -/
def pathExists (p : FPath) (fs : FS) : Bool :=
  p ∈ fs.dirs || p ∈ fs.files

inductive LockErr
  | lockHeld
deriving DecidableEq, Repr

/-- `_LockCtx.__enter__` from sync_pools.py: `self.root.mkdir(parents=True,
exist_ok=True)`, then if the sentinel exists `die(...)` (modelled as the
`LockErr.lockHeld` error, paired with the disk state at exit), else write
the sentinel file. -/
def lock_enter (root : FPath) (fs : FS) : Except LockErr Unit × FS :=
  let fs1 := mkdirParents root fs
  if make_lock root ∈ fs1.files then (Except.error LockErr.lockHeld, fs1)
  else (Except.ok (), writeFile (make_lock root) fs1)

/-- `_LockCtx.__exit__`: idempotent removal of the sentinel. -/
def lock_exit (root : FPath) (fs : FS) : FS :=
  removeFile (make_lock root) fs

/-- The acquisition loop of `main` in sync_pools.py
(`for ctx in lock_ctxs: ctx.__enter__()`): enter each lock in turn;
`die` on a held lock terminates the process at once, with the sentinels
written so far still on disk.  Returns whether all locks were entered,
and the disk state. -/
def acquireAll : List FPath → FS → Bool × FS
  | [], fs => (true, fs)
  | r :: rs, fs =>
      match lock_enter r fs with
      | (Except.ok _, fs1) => acquireAll rs fs1
      | (Except.error _, fs1) => (false, fs1)

/-- The release loop in the `finally` block of `main`
(`for ctx in reversed(lock_ctxs): ctx.__exit__(...)`). -/
def releaseAll (roots : List FPath) (fs : FS) : FS :=
  roots.reverse.foldl (fun acc r => lock_exit r acc) fs

inductive BatchOutcome
  | success
  | toolFault
  | abortedLockHeld
deriving DecidableEq, Repr

/-- The lock-protected batch of `main` in sync_pools.py.  The enter loop
runs BEFORE the `try` block; only after every lock is entered does the
`try:` body run with the releasing `finally`.  If entering some lock
dies with the lock held, the process exits immediately and no release
loop runs.  `body` abstracts the sync loop: it returns whether it
completed without an uncaught fault, and the disk state it left. -/
def runBatch (roots : List FPath) (body : FS → Bool × FS) (fs : FS) :
    BatchOutcome × FS :=
  match acquireAll roots fs with
  | (false, fs1) => (BatchOutcome.abortedLockHeld, fs1)
  | (true, fs1) =>
      let r := body fs1
      ((if r.1 then BatchOutcome.success else BatchOutcome.toolFault),
        releaseAll roots r.2)

-- ------------------------------------------------------------------
-- Theorems: locks (C1, C2)
-- ------------------------------------------------------------------

theorem addDir_mem (d : FPath) (fs : FS) (h : d ∈ fs.dirs) :
    addDir d fs = fs := by
  simp [addDir, h]

theorem foldl_addDir_mem (l : List FPath) (fs : FS)
    (h : ∀ d ∈ l, d ∈ fs.dirs) :
    l.foldl (fun acc d => addDir d acc) fs = fs := by
  induction l with
  | nil => rfl
  | cons d t ih =>
      have hd : d ∈ fs.dirs := h d (List.mem_cons_self d t)
      simp only [List.foldl_cons, addDir_mem d fs hd]
      exact ih (fun x hx => h x (List.mem_cons_of_mem d hx))

theorem mkdirParents_of_present (p : FPath) (fs : FS)
    (h : ∀ d ∈ pathParents p, d ∈ fs.dirs) :
    mkdirParents p fs = fs :=
  foldl_addDir_mem (pathParents p) fs h

/-- C2: if the sentinel file `<R>/.sync.lock` already exists, `acquire(R)`
(`_LockCtx.__enter__`) fails with `LockHeld` and performs no filesystem
mutation: the state after the failed acquire is exactly the state before
it.  The hypothesis `hdirs` states the well-formedness fact that the root
directory and its ancestors exist (they must, since a file exists under
the root), so the leading `mkdir(parents=True, exist_ok=True)` is a
no-op. -/
theorem acquire_lockHeld_no_mutation (root : FPath) (fs : FS)
    (hsent : make_lock root ∈ fs.files)
    (hdirs : ∀ d ∈ pathParents root, d ∈ fs.dirs) :
    lock_enter root fs = (Except.error LockErr.lockHeld, fs) := by
  unfold lock_enter
  rw [mkdirParents_of_present root fs hdirs]
  simp [hsent]

/-- Witness for `acquire_lockHeld_no_mutation` at a concrete state. -/
theorem acquire_lockHeld_no_mutation_witness :
    lock_enter ["pool"]
        ⟨[[], ["pool"]], [["pool", ".sync.lock"]]⟩ =
      (Except.error LockErr.lockHeld,
        ⟨[[], ["pool"]], [["pool", ".sync.lock"]]⟩) :=
  acquire_lockHeld_no_mutation ["pool"]
    ⟨[[], ["pool"]], [["pool", ".sync.lock"]]⟩ (by decide) (by decide)

/-- C1 (violated by the code): a batch over roots `a` then `b`, where `b`
is already locked and `a` is free, exits with the lock-held abort while
the sentinel it created at `a/.sync.lock` is still on disk — the release
loop is never reached because the acquisition loop in `main` runs before
the `try`/`finally` that releases the locks. -/
theorem runBatch_leaks_lock_on_partial_acquire :
    (runBatch [["a"], ["b"]] (fun fs => (true, fs))
        ⟨[[], ["a"], ["b"]], [["b", ".sync.lock"]]⟩).1 =
      BatchOutcome.abortedLockHeld ∧
    make_lock ["a"] ∈
      (runBatch [["a"], ["b"]] (fun fs => (true, fs))
        ⟨[[], ["a"], ["b"]], [["b", ".sync.lock"]]⟩).2.files := by
  decide

-- ------------------------------------------------------------------
-- Content index (sdcard_to_lacie.py / wipe_sdcard.py): C3, C4
-- ------------------------------------------------------------------

/-- A file under a scanned root: its path relative to the root (list of
name components, the last one being the file name) and its byte size. -/
structure MFile where
  path : FPath
  size : Nat
deriving DecidableEq, Repr

/-- `Path.name`: the final component. -/
def fname (f : MFile) : String := f.path.getLastD ""

/-- `str.startswith(pat)`, on the character lists of the strings. -/
def strStarts (s : String) (p : List Char) : Bool :=
  p.isPrefixOf s.data

/-- `is_hidden_or_metadata(p)`: `p.name.startswith(".") or
p.name.startswith("._")` (the second test is subsumed by the first;
kept as in the source). -/
def is_hidden_or_metadata (name : String) : Bool :=
  strStarts name ['.'] || strStarts name ['.', '_']

/-- `list_files_recursive(root)`: `[p for p in root.rglob("*") if
p.is_file() and not is_hidden_or_metadata(p)]`.  The tree argument is
the list of ALL plain files below the root in traversal order —
`Path.rglob("*")` is fnmatch-based and descends into dot-directories,
so files inside hidden ancestors are enumerated too; the only filter
applied is on each file's own final name component. -/
def list_files_recursive (tree : List MFile) : List MFile :=
  tree.filter (fun f => !is_hidden_or_metadata (fname f))

/-- Weak identity: `(f.name, f.stat().st_size)`. -/
abbrev ContentKey := String × Nat

def contentKey (f : MFile) : ContentKey := (fname f, f.size)

/-- One `idx.setdefault(key, []).append(f)` step on an association-list
rendering of the dict. -/
def addToIndex (idx : List (ContentKey × List FPath)) (f : MFile) :
    List (ContentKey × List FPath) :=
  match idx with
  | [] => [(contentKey f, [f.path])]
  | (k, ps) :: rest =>
      if k = contentKey f then (k, ps ++ [f.path]) :: rest
      else (k, ps) :: addToIndex rest f

/-- Dict lookup on the association list. -/
def idxLookup (idx : List (ContentKey × List FPath)) (k : ContentKey) :
    Option (List FPath) :=
  match idx with
  | [] => none
  | (k2, ps) :: rest => if k2 = k then some ps else idxLookup rest k

/-- `index_entire_media_root(root)` (identical to `index_media_root` in
wipe_sdcard.py): fold every listed file into the (name, size) index. -/
def index_entire_media_root (tree : List MFile) :
    List (ContentKey × List FPath) :=
  (list_files_recursive tree).foldl addToIndex []

/-- The classification loop of `find_dups_and_uniques_against_root`:
each file goes to `dups` (with the already-indexed paths) when its key
is in the index, else to `uniques`, preserving input order. -/
def classifyFiles (idx : List (ContentKey × List FPath)) :
    List MFile → List (MFile × List FPath) × List MFile
  | [] => ([], [])
  | f :: fs =>
      let r := classifyFiles idx fs
      match idxLookup idx (contentKey f) with
      | some ps => ((f, ps) :: r.1, r.2)
      | none => (r.1, f :: r.2)

/-- `find_dups_and_uniques_against_root(src_dir, root_index)`: classify
the eligible (non-hidden-named) files of the source tree against the
index.  The index is taken and returned untouched; the function reads
but never writes the filesystem. -/
def find_dups_and_uniques_against_root (srcTree : List MFile)
    (idx : List (ContentKey × List FPath)) :
    List (MFile × List FPath) × List MFile :=
  classifyFiles idx (list_files_recursive srcTree)

theorem classifyFiles_fst (idx : List (ContentKey × List FPath))
    (l : List MFile) :
    (classifyFiles idx l).1.map Prod.fst =
      l.filter (fun f => (idxLookup idx (contentKey f)).isSome) := by
  induction l with
  | nil => rfl
  | cons f fs ih =>
      simp only [classifyFiles]
      cases h : idxLookup idx (contentKey f) with
      | none => simp [h, ih, List.filter_cons]
      | some ps => simp [h, ih, List.filter_cons]

theorem classifyFiles_snd (idx : List (ContentKey × List FPath))
    (l : List MFile) :
    (classifyFiles idx l).2 =
      l.filter (fun f => !(idxLookup idx (contentKey f)).isSome) := by
  induction l with
  | nil => rfl
  | cons f fs ih =>
      simp only [classifyFiles]
      cases h : idxLookup idx (contentKey f) with
      | none => simp [h, ih, List.filter_cons]
      | some ps => simp [h, ih, List.filter_cons]

/-- C3: `diff(files, index)` partitions the eligible input set.  Writing
`eligible` for the non-hidden-named files of the source tree and
`(dups, uniques)` for the result: the duplicate originals together with
the uniques are a permutation of `eligible` (union is the eligible set,
each file exactly once); a file lands in `dups` exactly when its
(name, size) key is in the index and in `uniques` exactly when it is
not, so the two are disjoint.  The function takes the index and the
trees as values and returns only the classification — it mutates
neither the index nor the filesystem. -/
theorem diff_partitions_eligible (srcTree : List MFile)
    (idx : List (ContentKey × List FPath)) :
    (((find_dups_and_uniques_against_root srcTree idx).1.map Prod.fst ++
        (find_dups_and_uniques_against_root srcTree idx).2).Perm
      (list_files_recursive srcTree)) ∧
    (∀ f, f ∈ (find_dups_and_uniques_against_root srcTree idx).1.map Prod.fst ↔
      f ∈ list_files_recursive srcTree ∧
        (idxLookup idx (contentKey f)).isSome = true) ∧
    (∀ f, f ∈ (find_dups_and_uniques_against_root srcTree idx).2 ↔
      f ∈ list_files_recursive srcTree ∧
        (idxLookup idx (contentKey f)).isSome = false) ∧
    (∀ f, f ∈ (find_dups_and_uniques_against_root srcTree idx).1.map Prod.fst →
      f ∉ (find_dups_and_uniques_against_root srcTree idx).2) := by
  unfold find_dups_and_uniques_against_root
  rw [classifyFiles_fst, classifyFiles_snd]
  refine ⟨List.filter_append_perm _ _, ?_, ?_, ?_⟩
  · intro f; simp [List.mem_filter]
  · intro f; simp [List.mem_filter]
  · intro f hf hg
    simp [List.mem_filter] at hf hg
    exact absurd hf.2 (by simp [hg.2])

theorem idxLookup_addToIndex (idx : List (ContentKey × List FPath))
    (f : MFile) (k : ContentKey) :
    (idxLookup (addToIndex idx f) k).isSome =
      ((idxLookup idx k).isSome || contentKey f = k) := by
  induction idx with
  | nil =>
      by_cases h : contentKey f = k <;> simp [addToIndex, idxLookup, h]
  | cons p rest ih =>
      obtain ⟨k2, ps⟩ := p
      by_cases h1 : k2 = contentKey f
      · by_cases h2 : k2 = k
        · simp [addToIndex, idxLookup, h1, h2, h1 ▸ h2]
        · have h3 : ¬contentKey f = k := fun hk => h2 (h1.trans hk)
          simp [addToIndex, idxLookup, h1, h2, h3]
      · by_cases h2 : k2 = k
        · have h3 : ¬k = contentKey f := h2 ▸ h1
          simp [addToIndex, idxLookup, h1, h2, h3]
        · simp [addToIndex, idxLookup, h1, h2, ih]

theorem idxLookup_foldl (l : List MFile)
    (idx : List (ContentKey × List FPath)) (k : ContentKey) :
    (idxLookup (l.foldl addToIndex idx) k).isSome =
      ((idxLookup idx k).isSome || l.any (fun f => contentKey f = k)) := by
  induction l generalizing idx with
  | nil => simp
  | cons f fs ih =>
      simp only [List.foldl_cons, ih, idxLookup_addToIndex, List.any_cons]
      by_cases h : contentKey f = k <;> simp [h, Bool.or_comm, Bool.or_assoc]

/-- C4, amended: `build(root)` filters on each entry's OWN name only.  A
key is present in the index exactly when some file of the tree whose own
final name component is not hidden carries that (name, size) key —
whether or not the file lies below a hidden ancestor directory. -/
theorem build_filters_basename_only (tree : List MFile) :
    (∀ f ∈ list_files_recursive tree,
        is_hidden_or_metadata (fname f) = false) ∧
    (∀ k : ContentKey,
        (idxLookup (index_entire_media_root tree) k).isSome = true ↔
          ∃ f, f ∈ tree ∧ is_hidden_or_metadata (fname f) = false ∧
            contentKey f = k) := by
  constructor
  · intro f hf
    have := List.of_mem_filter hf
    simpa using this
  · intro k
    unfold index_entire_media_root
    rw [idxLookup_foldl]
    simp only [idxLookup, Option.isSome_none, Bool.false_or, List.any_eq_true]
    constructor
    · rintro ⟨f, hf, hk⟩
      have hmem := List.mem_of_mem_filter hf
      have hel := List.of_mem_filter hf
      exact ⟨f, hmem, by simpa using hel, by simpa using hk⟩
    · rintro ⟨f, hf, hh, hk⟩
      refine ⟨f, List.mem_filter.mpr ⟨hf, by simp [hh]⟩, by simp [hk]⟩

/-- C4 counterexample: a file `.hidden/clip.mp4` lies under a hidden
ancestor directory, yet `build` indexes it — its own name `clip.mp4` is
not hidden, and the recursive walk does not exclude entries below hidden
directories. -/
theorem build_indexes_file_under_hidden_ancestor :
    idxLookup (index_entire_media_root [⟨[".hidden", "clip.mp4"], 5⟩])
        ("clip.mp4", 5) = some [[".hidden", "clip.mp4"]] ∧
    list_files_recursive [⟨[".hidden", "clip.mp4"], 5⟩] =
      [⟨[".hidden", "clip.mp4"], 5⟩] := by
  decide

-- ------------------------------------------------------------------
-- Bin allocator (sdcard_to_lacie.py / proxy_packager.py): C5, C7, C10
-- ------------------------------------------------------------------

/-- Python `f"{n:02d}"` for a natural number: decimal digits, left-padded
with `0` to width two. -/
def pad2 (n : Nat) : String :=
  if n < 10 then "0" ++ toString n else toString n

/-- `suggest_next_bin_name(today, existing)` from sdcard_to_lacie.py:
`todays = [seq for (d, seq, _) in existing if d == ymd]`,
`next_seq = (max(todays) + 1) if todays else 1`,
`f"{ymd}_{next_seq:02d}"`.  `today` is the already-formatted 8-digit
date string; the path component of each existing-bin triple is unused. -/
def suggest_next_bin_name (today : String)
    (existing : List (String × Nat × FPath)) : String :=
  let todays := (existing.filter (fun e => e.1 = today)).map
    (fun e => e.2.1)
  let next_seq := if todays.isEmpty then 1 else todays.foldl Nat.max 0 + 1
  today ++ "_" ++ pad2 next_seq

/-- Modelled from the spec sentence for `suggestNext`: `seq = 1 + max(seq
for (d,seq,_) in existing if d == today)`, or `1` if none match today;
returns `"{today}_{seq:02d}"`.  Deliberately phrased through `filterMap`
and a right fold, to be compared with the source-derived
`suggest_next_bin_name`. -/
def suggestNextSpec (today : String)
    (existing : List (String × Nat × FPath)) : String :=
  let seqs := existing.filterMap
    (fun e => if e.1 = today then some e.2.1 else none)
  let seq := if seqs.isEmpty then 1 else 1 + seqs.foldr Nat.max 0
  today ++ "_" ++ pad2 seq

theorem filter_map_eq_filterMap (today : String)
    (existing : List (String × Nat × FPath)) :
    (existing.filter (fun e => e.1 = today)).map (fun e => e.2.1) =
      existing.filterMap
        (fun e => if e.1 = today then some e.2.1 else none) := by
  induction existing with
  | nil => rfl
  | cons e t ih =>
      by_cases h : e.1 = today <;>
        simp [List.filter_cons, List.filterMap_cons, h, ih]

theorem foldl_max_eq_foldr_max (l : List Nat) (a : Nat) :
    l.foldl Nat.max a = Nat.max a (l.foldr Nat.max 0) := by
  induction l generalizing a with
  | nil => simp
  | cons x t ih =>
      simp only [List.foldl_cons, List.foldr_cons, ih, Nat.max_assoc]

/-- C5: the source allocator agrees with the spec formula on every input,
and on the spec's two concrete examples. -/
theorem suggest_next_matches_spec :
    (∀ today existing,
        suggest_next_bin_name today existing = suggestNextSpec today existing) ∧
    suggest_next_bin_name "20250906"
        [("20250906", 1, []), ("20250906", 2, []), ("20250907", 1, [])] =
      "20250906_03" ∧
    suggest_next_bin_name "20250906" [] = "20250906_01" := by
  refine ⟨?_, by decide, by decide⟩
  intro today existing
  simp only [suggest_next_bin_name, suggestNextSpec, ← filter_map_eq_filterMap]
  by_cases h : ((existing.filter (fun e => e.1 = today)).map
      (fun e => e.2.1)).isEmpty
  · simp [h]
  · simp only [h, if_false, foldl_max_eq_foldr_max, Nat.zero_max,
      Nat.add_comm]

/-- `int(...)` on a run of decimal digit characters. -/
def digitsToNat (cs : List Char) : Nat :=
  cs.foldl (fun a c => 10 * a + (c.toNat - 48)) 0

/-- What the optional part `(?:_.*)?$` of BIN_PATTERN accepts after the
two sequence digits: nothing, or an underscore followed by anything. -/
def suffixOk : List Char → Bool
  | [] => true
  | c :: _ => c = '_'

/-- `BIN_PATTERN` from sdcard_to_lacie.py,
`^(?P<ymd>\d{8})_(?P<seq>\d{2})(?:_.*)?$`, as a recognizer returning the
captured (date, sequence) on a match.  Both capture widths are fixed, so
the regex is equivalent to this positional decomposition. -/
def binMatch (s : String) : Option (String × Nat) :=
  if (s.data.take 8).length = 8 ∧ (s.data.take 8).all Char.isDigit = true then
    match s.data.drop 8 with
    | '_' :: a :: b :: tail =>
        if a.isDigit && b.isDigit && suffixOk tail then
          some (String.mk (s.data.take 8), digitsToNat [a, b])
        else none
    | _ => none
  else none

/-- The per-run pattern of `next_today_bucket` in proxy_packager.py,
compiled from `today_str` (8 digit characters, so a literal prefix):
it accepts only `today` followed by an underscore and exactly two
digits — no optional suffix, no other date. -/
def sentMatch (today : String) (name : String) : Option Nat :=
  if name.data.take today.data.length = today.data then
    match name.data.drop today.data.length with
    | '_' :: a :: b :: [] =>
        if a.isDigit && b.isDigit then some (digitsToNat [a, b]) else none
    | _ => none
  else none

/-- A name whose character data decomposes as 8 digits, an underscore,
two digits and an accepted tail is matched by `BIN_PATTERN` with the
expected captures. -/
theorem binMatch_eq_some (s : String) (cs : List Char) (a b : Char)
    (tail : List Char) (hs : s.data = cs ++ '_' :: a :: b :: tail)
    (h8 : cs.length = 8) (hd : cs.all Char.isDigit = true)
    (ha : a.isDigit = true) (hb : b.isDigit = true)
    (ht : suffixOk tail = true) :
    binMatch s = some (String.mk cs, digitsToNat [a, b]) := by
  unfold binMatch
  rw [hs, ← h8, List.take_left, List.drop_left]
  simp [h8, hd, ha, hb, ht]

/-- `f"{n:02d}"` of any number below 100 is exactly two decimal digits,
and parsing those two digits gives the number back. -/
theorem pad2_below_100 : ∀ n < 100, (pad2 n).data.length = 2 ∧
    (pad2 n).data.all Char.isDigit = true ∧
    digitsToNat (pad2 n).data = n := by decide

theorem foldl_max_le (l : List Nat) (a c : Nat) (ha : a ≤ c)
    (h : ∀ x ∈ l, x ≤ c) : l.foldl Nat.max a ≤ c := by
  induction l generalizing a with
  | nil => exact ha
  | cons x t ih =>
      simp only [List.foldl_cons]
      exact ih (Nat.max a x) (Nat.max_le.mpr ⟨ha, h x (by simp)⟩)
        (fun y hy => h y (by simp [hy]))

/-- C10: the allocator enforces no upper bound on the two-digit sequence
field.  Whenever every existing entry for today carries a sequence of at
most 98, the suggested name still matches `BIN_PATTERN`; but from an
existing sequence 99 for today the suggestion is today followed by
`_100`, which `BIN_PATTERN` rejects — so later parse-existing scans of
that namespace never see such a bin. -/
theorem seq_field_overflow :
    (∀ (today : String) (existing : List (String × Nat × FPath)),
        today.data.length = 8 → today.data.all Char.isDigit = true →
        (∀ e ∈ existing, e.1 = today → e.2.1 ≤ 98) →
        (binMatch (suggest_next_bin_name today existing)).isSome = true) ∧
    suggest_next_bin_name "20250906" [("20250906", 99, [])] =
      "20250906_100" ∧
    binMatch "20250906_100" = none := by
  refine ⟨?_, by decide, by decide⟩
  intro today existing h8 hd hmax
  set l := (existing.filter (fun e => e.1 = today)).map (fun e => e.2.1)
    with hl
  set ns := if l.isEmpty then 1 else l.foldl Nat.max 0 + 1 with hns
  have hrw : suggest_next_bin_name today existing =
      today ++ "_" ++ pad2 ns := rfl
  have hbound : ∀ x ∈ l, x ≤ 98 := by
    intro x hx
    rw [hl] at hx
    obtain ⟨e, hef, hex⟩ := List.mem_map.mp hx
    have he1 := List.mem_of_mem_filter hef
    have he2 := List.of_mem_filter hef
    exact hex ▸ hmax e he1 (by simpa using he2)
  have hlt : ns < 100 := by
    by_cases he : l.isEmpty
    · rw [hns, if_pos he]; omega
    · have := foldl_max_le l 0 98 (by omega) hbound
      rw [hns, if_neg he]; omega
  obtain ⟨hlen, hall, hval⟩ := pad2_below_100 ns hlt
  obtain ⟨a, b, hp⟩ := List.length_eq_two.mp hlen
  rw [hp] at hall
  simp only [List.all_cons, List.all_nil, Bool.and_true,
    Bool.and_eq_true] at hall
  have hdata : (today ++ "_" ++ pad2 ns).data =
      today.data ++ '_' :: a :: b :: [] := by
    rw [String.data_append, String.data_append, hp]
    simp
  rw [hrw, binMatch_eq_some (today ++ "_" ++ pad2 ns) today.data a b []
    hdata h8 hd hall.1 hall.2 rfl]
  rfl

/-- C7 counterexample: the suffix-carrying name `20250906_05_ya` is
accepted by the ingest-bin recognizer (`BIN_PATTERN`) but rejected by
the sent-bucket recognizer of `next_today_bucket`, with today set to
`20250906` — the two namespaces do not apply the same pattern. -/
theorem bin_sent_recognizers_disagree :
    binMatch "20250906_05_ya" = some ("20250906", 5) ∧
    sentMatch "20250906" "20250906_05_ya" = none := by decide

/-- C7, amended: the sent-bucket recognizer accepts a strict subset of
the ingest-bin pattern — every name it accepts (today's date, an
underscore, exactly two digits and no suffix) is accepted by
`BIN_PATTERN` with the same extracted (date, seq) components; the
converse fails on suffix-carrying names and on other dates. -/
theorem sent_recognizer_subset_of_bin (today name : String) (k : Nat)
    (h8 : today.data.length = 8) (hd : today.data.all Char.isDigit = true)
    (hs : sentMatch today name = some k) :
    binMatch name = some (today, k) := by
  unfold sentMatch at hs
  split at hs
  case isFalse => exact absurd hs (by simp)
  case isTrue hpre =>
    split at hs
    case h_2 => exact absurd hs (by simp)
    case h_1 a b heq =>
      split at hs
      case isFalse => exact absurd hs (by simp)
      case isTrue hdig =>
        have hk : digitsToNat [a, b] = k := Option.some.inj hs
        have hdata : name.data = today.data ++ '_' :: a :: b :: [] := by
          have hsplit := List.take_append_drop today.data.length name.data
          rw [heq, hpre] at hsplit
          exact hsplit.symm
        obtain ⟨ha, hb⟩ : a.isDigit = true ∧ b.isDigit = true := by
          simpa using hdig
        have := binMatch_eq_some name today.data a b [] hdata h8 hd ha hb
          rfl
        rw [this, hk]

/-- Witness for `sent_recognizer_subset_of_bin` at a concrete name. -/
theorem sent_recognizer_subset_of_bin_witness :
    binMatch "20250906_07" = some ("20250906", 7) :=
  sent_recognizer_subset_of_bin "20250906" "20250906_07" 7
    (by decide) (by decide) (by decide)

-- ------------------------------------------------------------------
-- Allocation commit checks (sdcard_to_lacie.py / proxy_packager.py): C6
-- ------------------------------------------------------------------

inductive AllocErr
  | destinationExists
deriving DecidableEq, Repr

/-- `copy_selected_files(src_root, dst_root, files)` from
sdcard_to_lacie.py: `if dst_root.exists(): die(...)` — re-check the
final resolved destination immediately before creating it, and abort
without touching anything if it is already on disk; otherwise copy each
selected file under the destination, creating parent directories.
`rels` are the files' paths relative to the source root. -/
def copy_selected_files (dst_root : FPath) (rels : List FPath)
    (fs : FS) : Except AllocErr FS :=
  if pathExists dst_root fs then Except.error AllocErr.destinationExists
  else Except.ok (rels.foldl
    (fun acc rel =>
      writeFile (dst_root ++ rel) (mkdirParents (dst_root ++ rel).dropLast acc))
    fs)

/-- The names of the immediate children of directory `d` among the
paths `ps` (`sent_dir.iterdir()` restricted to directories). -/
def childNames (d : FPath) (ps : List FPath) : List String :=
  ps.filterMap (fun p =>
    match p.getLast? with
    | some n => if p.dropLast = d then some n else none
    | none => none)

/-- `next_today_bucket(sent_dir)` from proxy_packager.py: scan the
immediate subdirectories of `sent_dir` for names matching the per-run
today pattern, take the maximal matched index (0 when none or when the
directory does not exist), and return the bucket name and path for
max+1. -/
def next_today_bucket (today : String) (sent_dir : FPath) (fs : FS) :
    String × FPath :=
  let idxs := if sent_dir ∈ fs.dirs then
      (childNames sent_dir fs.dirs).filterMap (sentMatch today)
    else []
  let next_idx := idxs.foldl Nat.max 0 + 1
  let bucket_name := today ++ "_" ++ pad2 next_idx
  (bucket_name, sent_dir ++ [bucket_name])

/-- The bucket-commit step of `main` in proxy_packager.py: compute
today's bucket with `next_today_bucket`, then `ensure_dir(bucket_path)`
— a bare `mkdir(parents=True, exist_ok=True)` that succeeds whether or
not the path already exists.  No existence re-check, no failure
path. -/
def allocate_sent_bucket (today : String) (sent_dir : FPath) (fs : FS) :
    Except AllocErr (FPath × FS) :=
  Except.ok ((next_today_bucket today sent_dir fs).2,
    mkdirParents (next_today_bucket today sent_dir fs).2 fs)

/-- C6 counterexample: in the sent-bucket namespace the resolved path
can already exist at commit time and the operation still succeeds,
silently reusing the directory instead of failing with
DestinationExists.  With buckets `20250906_99` and `20250906_100` on
disk, the scan ignores the three-digit name, allocates `20250906_100`
again, observes no conflict check, and `ensure_dir` leaves the existing
directory in place. -/
theorem sent_bucket_commit_skips_existence_check :
    (next_today_bucket "20250906" ["_sent"]
        ⟨[[], ["_sent"], ["_sent", "20250906_99"],
          ["_sent", "20250906_100"]], []⟩).2 =
      ["_sent", "20250906_100"] ∧
    pathExists ["_sent", "20250906_100"]
        ⟨[[], ["_sent"], ["_sent", "20250906_99"],
          ["_sent", "20250906_100"]], []⟩ = true ∧
    allocate_sent_bucket "20250906" ["_sent"]
        ⟨[[], ["_sent"], ["_sent", "20250906_99"],
          ["_sent", "20250906_100"]], []⟩ =
      Except.ok (["_sent", "20250906_100"],
        ⟨[[], ["_sent"], ["_sent", "20250906_99"],
          ["_sent", "20250906_100"]], []⟩) :=
  ⟨by decide, by decide, by rfl⟩

/-- C6, amended: only the ingest-bin namespace re-checks the final
resolved path immediately before creation — `copy_selected_files` fails
with DestinationExists and mutates nothing whenever the destination
already exists.  The sent-bucket namespace performs no such check: its
commit step succeeds on every filesystem state (it can never fail with
DestinationExists), creating the bucket directory with exist-ok
semantics. -/
theorem allocator_commit_check_ingest_only :
    (∀ (dst_root : FPath) (rels : List FPath) (fs : FS),
        pathExists dst_root fs = true →
        copy_selected_files dst_root rels fs =
          Except.error AllocErr.destinationExists) ∧
    (∀ (today : String) (sent_dir : FPath) (fs : FS), ∃ r,
        allocate_sent_bucket today sent_dir fs = Except.ok r) := by
  constructor
  · intro dst_root rels fs h
    simp [copy_selected_files, h]
  · intro today sent_dir fs
    exact ⟨_, rfl⟩

-- ------------------------------------------------------------------
-- ReverseScan itemized-output parsing (sync_pools.py): C8
-- ------------------------------------------------------------------

def spaceChar : Char := Char.ofNat 32

/-- `line.split(" ", 1)` when the line contains a space, else the
skipped case: the characters before the first space and those after
it. -/
def splitOnFirst : List Char → Option (List Char × List Char)
  | [] => none
  | c :: rest =>
      if c = spaceChar then some ([], rest)
      else match splitOnFirst rest with
        | some r => some (c :: r.1, r.2)
        | none => none

/-- One iteration of the parsing loop in
`rsync_list_missing_from_src_mp4_only`: skip empty and space-free
lines, split off the itemized change code, and keep the path exactly
when the code has at least two characters and its second character is
the plain-file type code `f`. -/
def lineCandidate (line : String) : Option String :=
  match splitOnFirst line.data with
  | none => none
  | some r =>
      match r.1 with
      | _ :: t :: _ => if t = 'f' then some (String.mk r.2) else none
      | _ => none

/-- `p.endswith("/")`. -/
def endsWithSlash (s : String) : Bool :=
  match s.data.getLast? with
  | some c => c = '/'
  | none => false

/-- The parsing phase of `rsync_list_missing_from_src_mp4_only` plus
its final guard: collect the plain-file candidates, then drop any
trailing-slash item. -/
def parse_itemized (lines : List String) : List String :=
  (lines.filterMap lineCandidate).filter (fun p => !endsWithSlash p)

theorem lineCandidate_eq_some (line : String) (p : String) :
    lineCandidate line = some p ↔
      ∃ c0 rest, splitOnFirst line.data =
        some (c0 :: 'f' :: rest, p.data) := by
  cases hsp : splitOnFirst line.data with
  | none => simp [lineCandidate, hsp]
  | some r =>
      obtain ⟨code, path⟩ := r
      rcases code with _ | ⟨c0, _ | ⟨t, rest⟩⟩
      · simp [lineCandidate, hsp]
      · simp [lineCandidate, hsp]
      · simp only [lineCandidate, hsp]
        by_cases ht : t = 'f'
        · subst ht
          rw [if_pos rfl]
          constructor
          · intro h
            refine ⟨c0, rest, ?_⟩
            have hp : String.mk path = p := Option.some.inj h
            have hpath : path = p.data := by rw [← hp]
            rw [hpath]
          · rintro ⟨c0q, restq, heq⟩
            have h2 := Option.some.inj heq
            have hpath : path = p.data := congrArg Prod.snd h2
            rw [hpath]
        · simp only [if_neg ht]
          constructor
          · intro h
            exact absurd h (by simp)
          · rintro ⟨c0q, restq, heq⟩
            have h2 := Option.some.inj heq
            have h3 : c0 :: t :: rest = c0q :: 'f' :: restq :=
              congrArg Prod.fst h2
            simp only [List.cons.injEq] at h3
            exact (ht h3.2.1).elim

/-- C8, amended: the parser retains exactly the lines that split at a
first space into a change code whose second character is the plain-file
type code `f` and a path not ending in a separator; it applies no glob
filter itself (the include filter is handed to the external tool as
command arguments), so on the spec's three example lines it keeps both
the mp4 and the txt path. -/
theorem parse_retains_exactly_plain_files (lines : List String) :
    (∀ p, p ∈ parse_itemized lines ↔
        (endsWithSlash p = false ∧ ∃ line, line ∈ lines ∧
          ∃ c0 rest, splitOnFirst line.data =
            some (c0 :: 'f' :: rest, p.data))) ∧
    parse_itemized
        [">f+++++++ a/b.mp4", ".d..t...... a/", ">f+++++++ a/c.txt"] =
      ["a/b.mp4", "a/c.txt"] := by
  refine ⟨?_, by decide⟩
  intro p
  unfold parse_itemized
  rw [List.mem_filter]
  simp only [List.mem_filterMap, lineCandidate_eq_some, Bool.not_eq_true']
  constructor
  · rintro ⟨⟨line, hline, hc⟩, hslash⟩
    exact ⟨hslash, line, hline, hc⟩
  · rintro ⟨hslash, line, hline, hc⟩
    exact ⟨⟨line, hline, hc⟩, hslash⟩

/-- C8 counterexample: on the spec's example lines the parser keeps
`a/c.txt` as well — the candidate set is not the singleton the claim
states, because the include filter is applied by the external tool, not
by this parser. -/
theorem parse_itemized_keeps_nonmatching_plain_file :
    "a/c.txt" ∈ parse_itemized
      [">f+++++++ a/b.mp4", ".d..t...... a/", ">f+++++++ a/c.txt"] ∧
    parse_itemized
        [">f+++++++ a/b.mp4", ".d..t...... a/", ">f+++++++ a/c.txt"] ≠
      ["a/b.mp4"] := by
  decide

-- ------------------------------------------------------------------
-- Orchestrator control flow (sync_pools.py): C9
-- ------------------------------------------------------------------

inductive StructErr
  | volumeNotMounted
deriving DecidableEq, Repr

inductive SyncEvent
  | forwardRun (rc : Nat)
  | forwardWarn (rc : Nat)
  | reverseScan
  | reverseScanWarn (rc : Nat)
  | backRun (rc : Nat)
  | backWarn (rc : Nat)
  | backSkipped
deriving DecidableEq, Repr

/-- The outcomes of the external tool invocations and the interactive
answer that `sync_pair_forward_then_optional_back` consumes: the
forward-mirror exit code, the reverse dry-run exit code and its
candidate list, the user's back-sync confirmation, and the back-sync
exit code. -/
structure ToolOutcomes where
  fwdRc : Nat
  scanRc : Nat
  missing : List String
  userConfirm : Bool
  backRc : Nat
deriving Repr

/-- `sync_pair_forward_then_optional_back` from sync_pools.py as an
event trace.  `ensure_mounted` dies (structural error) on an unmounted
volume before any transfer.  A non-zero forward exit code is only
warned about (`[WARN] rsync forward exited...`) and the function falls
through to the reverse dry-run unconditionally; a failed dry-run is
warned about and empties the candidate list; back-sync runs only on a
non-empty list and user confirmation, its failure again only
warned. -/
def sync_pair_forward_then_optional_back
    (srcMounted dstMounted : Bool) (t : ToolOutcomes) :
    Except StructErr (List SyncEvent) :=
  if !srcMounted then Except.error StructErr.volumeNotMounted
  else if !dstMounted then Except.error StructErr.volumeNotMounted
  else
    let ev1 := [SyncEvent.forwardRun t.fwdRc] ++
      (if t.fwdRc ≠ 0 then [SyncEvent.forwardWarn t.fwdRc] else [])
    let missing := if t.scanRc ≠ 0 then [] else t.missing
    let ev2 := [SyncEvent.reverseScan] ++
      (if t.scanRc ≠ 0 then [SyncEvent.reverseScanWarn t.scanRc] else [])
    let ev3 :=
      if missing.isEmpty then []
      else if t.userConfirm then
        [SyncEvent.backRun t.backRc] ++
          (if t.backRc ≠ 0 then [SyncEvent.backWarn t.backRc] else [])
      else [SyncEvent.backSkipped]
    Except.ok (ev1 ++ ev2 ++ ev3)

/-- C9: a non-zero forward-mirror exit status is recoverable, not
fatal.  Whenever both volumes are mounted the task never aborts: it
returns an event trace in which the ReverseScan phase occurs, and a
non-zero forward exit additionally shows up as a warning event in that
trace.  The only fatal error this phase can raise is the structural
unmounted-volume one. -/
theorem forward_failure_is_recoverable
    (srcMounted dstMounted : Bool) (t : ToolOutcomes)
    (hsrc : srcMounted = true) (hdst : dstMounted = true) :
    ∃ evs, sync_pair_forward_then_optional_back srcMounted dstMounted t =
        Except.ok evs ∧
      SyncEvent.reverseScan ∈ evs ∧
      (t.fwdRc ≠ 0 → SyncEvent.forwardWarn t.fwdRc ∈ evs) := by
  subst hsrc hdst
  unfold sync_pair_forward_then_optional_back
  simp only [Bool.not_true, Bool.false_eq_true, if_false]
  refine ⟨_, rfl, ?_, ?_⟩
  · simp
  · intro h
    simp [h]

/-- Witness for `forward_failure_is_recoverable`: a forward exit code
of 23 still reaches ReverseScan, with the warning recorded. -/
theorem forward_failure_is_recoverable_witness :
    ∃ evs, sync_pair_forward_then_optional_back true true
        ⟨23, 0, [], false, 0⟩ = Except.ok evs ∧
      SyncEvent.reverseScan ∈ evs ∧
      ((23 : Nat) ≠ 0 → SyncEvent.forwardWarn 23 ∈ evs) :=
  forward_failure_is_recoverable true true ⟨23, 0, [], false, 0⟩ rfl rfl
